import Mathlib

set_option maxRecDepth 4000
set_option maxHeartbeats 1000000

/-!
Verification of the open-data-mcp server core (src/app.ts and its registry
variant): the tool-dispatch pipeline, the catalog enrichment, and the
session-registry lifecycle, embedded shallowly as Lean definitions.

JSON-serializable values are modelled by the inductive `Json`; the platform
pair `JSON.stringify` / `JSON.parse` is modelled by `Json.stringify` and
`Json.parse` (integer numerals; stringify escapes exactly what the platform
escapes for the characters the model covers).
-/

/-- Model of a JSON-serializable JavaScript value (numbers restricted to
integers). -/
inductive Json where
  | null : Json
  | bool : Bool → Json
  | num : Int → Json
  | str : String → Json
  | arr : List Json → Json
  | obj : List (String × Json) → Json
deriving Repr

/-- Decimal digit to its character. -/
def digitChar (n : Nat) : Char := Char.ofNat (48 + n)

/-- Decimal rendering of a natural number, most significant digit first. -/
def natToChars (n : Nat) : List Char :=
  if _h : n < 10 then [digitChar n]
  else natToChars (n / 10) ++ [digitChar (n % 10)]
decreasing_by exact Nat.div_lt_self (by omega) (by omega)

/-- Decimal rendering of an integer, as `JSON.stringify` renders integral
numbers. -/
def intToChars (n : Int) : List Char :=
  if n < 0 then '-' :: natToChars n.natAbs else natToChars n.natAbs

/-- Low hex digit character (lowercase), as used in `\u00XX` escapes. -/
def hexDigitChar (n : Nat) : Char :=
  if n < 10 then Char.ofNat (48 + n) else Char.ofNat (87 + n)

/-- The escaping `JSON.stringify` applies inside string literals: quote,
backslash, the named control escapes, and `\u00XX` for the remaining control
characters; every other character is emitted as itself. -/
def escapeChar (c : Char) : List Char :=
  if c = '"' then ['\\', '"']
  else if c = '\\' then ['\\', '\\']
  else if c = '\n' then ['\\', 'n']
  else if c = '\t' then ['\\', 't']
  else if c = '\r' then ['\\', 'r']
  else if c = '\x08' then ['\\', 'b']
  else if c = '\x0c' then ['\\', 'f']
  else if c.toNat < 32 then
    ['\\', 'u', '0', '0', hexDigitChar (c.toNat / 16), hexDigitChar (c.toNat % 16)]
  else [c]

/-- Escape every character of a string body. -/
def escList (cs : List Char) : List Char := cs.flatMap escapeChar

/-- A JSON string literal: quote, escaped body, quote. -/
def strLitChars (s : String) : List Char :=
  '"' :: escList s.data ++ ['"']

/-- Character-level model of `JSON.stringify` (no added whitespace, which is
what `JSON.stringify(v)` with no spacing argument produces). -/
def stringifyChars : Json → List Char
  | .null => ['n', 'u', 'l', 'l']
  | .bool b => if b then ['t', 'r', 'u', 'e'] else ['f', 'a', 'l', 's', 'e']
  | .num n => intToChars n
  | .str s => strLitChars s
  | .arr xs =>
      '[' :: List.intercalate [','] (xs.attach.map (fun x => stringifyChars x.1)) ++ [']']
  | .obj fs =>
      '\x7b' :: List.intercalate [',']
        (fs.attach.map (fun kv => strLitChars kv.1.1 ++ ':' :: stringifyChars kv.1.2)) ++
        ['\x7d']
termination_by v => sizeOf v
decreasing_by
  · have := List.sizeOf_lt_of_mem x.2
    simp only [Json.arr.sizeOf_spec]
    omega
  · have h1 := List.sizeOf_lt_of_mem kv.2
    have h2 : sizeOf kv.1.2 < sizeOf kv.1 := by
      obtain ⟨⟨k, v⟩, hm⟩ := kv
      simp only [Prod.mk.sizeOf_spec]
      omega
    simp only [Json.obj.sizeOf_spec]
    omega

/-- Model of `JSON.stringify`. -/
def Json.stringify (v : Json) : String := String.mk (stringifyChars v)

theorem stringifyChars_null : stringifyChars .null = ['n', 'u', 'l', 'l'] := by
  rw [stringifyChars]

theorem stringifyChars_bool (b : Bool) :
    stringifyChars (.bool b) =
      if b then ['t', 'r', 'u', 'e'] else ['f', 'a', 'l', 's', 'e'] := by
  rw [stringifyChars]

theorem stringifyChars_num (n : Int) : stringifyChars (.num n) = intToChars n := by
  rw [stringifyChars]

theorem stringifyChars_str (s : String) : stringifyChars (.str s) = strLitChars s := by
  rw [stringifyChars]

/-- Unfolding of `stringifyChars` on arrays without `attach`. -/
theorem stringifyChars_arr (xs : List Json) :
    stringifyChars (.arr xs) =
      '[' :: List.intercalate [','] (xs.map stringifyChars) ++ [']'] := by
  rw [stringifyChars, List.attach_map_val xs stringifyChars]

/-- Unfolding of `stringifyChars` on objects without `attach`. -/
theorem stringifyChars_obj (fs : List (String × Json)) :
    stringifyChars (.obj fs) =
      '\x7b' :: List.intercalate [',']
        (fs.map (fun kv => strLitChars kv.1 ++ ':' :: stringifyChars kv.2)) ++
        ['\x7d'] := by
  rw [stringifyChars,
    List.attach_map_val fs (fun kv => strLitChars kv.1 ++ ':' :: stringifyChars kv.2)]

/-- Hex digit value of a character, as consumed by a `\uXXXX` escape. -/
def hexVal (c : Char) : Option Nat :=
  if '0' ≤ c ∧ c ≤ '9' then some (c.toNat - 48)
  else if 'a' ≤ c ∧ c ≤ 'f' then some (c.toNat - 87)
  else if 'A' ≤ c ∧ c ≤ 'F' then some (c.toNat - 55)
  else none

/-- Single-character JSON escapes accepted after a backslash. -/
def unescapeChar (c : Char) : Option Char :=
  if c = '"' then some '"'
  else if c = '\\' then some '\\'
  else if c = '/' then some '/'
  else if c = 'n' then some '\n'
  else if c = 't' then some '\t'
  else if c = 'r' then some '\r'
  else if c = 'b' then some '\x08'
  else if c = 'f' then some '\x0c'
  else none

/-- Parse the body of a JSON string literal (after the opening quote) up to
and including the closing quote; `acc` holds the characters read so far. -/
def parseStr (acc : List Char) : List Char → Option (String × List Char)
  | [] => none
  | c :: rest =>
    if c = '"' then some (String.mk acc, rest)
    else if c = '\\' then
      match rest with
      | 'u' :: h1 :: h2 :: h3 :: h4 :: rest2 =>
        match hexVal h1, hexVal h2, hexVal h3, hexVal h4 with
        | some a, some b, some c2, some d =>
          parseStr (acc ++ [Char.ofNat (((a * 16 + b) * 16 + c2) * 16 + d)]) rest2
        | _, _, _, _ => none
      | e :: rest2 =>
        match unescapeChar e with
        | some u => parseStr (acc ++ [u]) rest2
        | none => none
      | [] => none
    else parseStr (acc ++ [c]) rest

/-- Greedily read a run of decimal digits, folding them onto `acc`. -/
def parseDigits (acc : Nat) : List Char → Nat × List Char
  | [] => (acc, [])
  | c :: rest =>
    if c.isDigit then parseDigits (acc * 10 + (c.toNat - 48)) rest
    else (acc, c :: rest)

/-- Whether a character list starts with a decimal digit. -/
def headIsDigit : List Char → Bool
  | [] => false
  | c :: _ => c.isDigit

mutual

/-- Fuel-indexed model of `JSON.parse` on a single value: consumes one JSON
value from the front of the list and returns it with the unread remainder. -/
def parseValue : Nat → List Char → Option (Json × List Char)
  | 0, _ => none
  | fuel + 1, cs =>
    match cs with
    | [] => none
    | c :: rest =>
      if c = 'n' then
        match rest with
        | 'u' :: 'l' :: 'l' :: r => some (.null, r)
        | _ => none
      else if c = 't' then
        match rest with
        | 'r' :: 'u' :: 'e' :: r => some (.bool true, r)
        | _ => none
      else if c = 'f' then
        match rest with
        | 'a' :: 'l' :: 's' :: 'e' :: r => some (.bool false, r)
        | _ => none
      else if c = '"' then
        match parseStr [] rest with
        | some (s, r) => some (.str s, r)
        | none => none
      else if c = '[' then
        match rest with
        | [] => none
        | d :: rest2 =>
          if d = ']' then some (.arr [], rest2)
          else
            match parseElems fuel (d :: rest2) with
            | some (vs, r) => some (.arr vs, r)
            | none => none
      else if c = '\x7b' then
        match rest with
        | [] => none
        | d :: rest2 =>
          if d = '\x7d' then some (.obj [], rest2)
          else
            match parseFields fuel (d :: rest2) with
            | some (fs, r) => some (.obj fs, r)
            | none => none
      else if c = '-' then
        match rest with
        | [] => none
        | d :: _ =>
          if d.isDigit then
            let p := parseDigits 0 rest
            some (.num (-(p.1 : Int)), p.2)
          else none
      else if c.isDigit then
        let p := parseDigits 0 (c :: rest)
        some (.num (p.1 : Int), p.2)
      else none

/-- Parse the elements of a non-empty JSON array up to and including the
closing bracket. -/
def parseElems : Nat → List Char → Option (List Json × List Char)
  | 0, _ => none
  | fuel + 1, cs =>
    match parseValue fuel cs with
    | some (v, ',' :: rest) =>
      match parseElems fuel rest with
      | some (vs, r) => some (v :: vs, r)
      | none => none
    | some (v, ']' :: rest) => some ([v], rest)
    | _ => none

/-- Parse the members of a non-empty JSON object up to and including the
closing brace. -/
def parseFields : Nat → List Char → Option (List (String × Json) × List Char)
  | 0, _ => none
  | fuel + 1, cs =>
    match cs with
    | '"' :: rest =>
      match parseStr [] rest with
      | some (k, ':' :: rest2) =>
        match parseValue fuel rest2 with
        | some (v, ',' :: rest3) =>
          match parseFields fuel rest3 with
          | some (fs, r) => some ((k, v) :: fs, r)
          | none => none
        | some (v, '\x7d' :: rest3) => some ([(k, v)], rest3)
        | _ => none
      | _ => none
    | _ => none

end

/-- Model of `JSON.parse`: succeeds only if the whole input is one JSON
value. -/
def Json.parse (s : String) : Option Json :=
  match parseValue (s.length + 1) s.data with
  | some (v, []) => some v
  | _ => none

example : Json.parse "[1,-20,\"a\x5c\"b\",true]" =
    some (.arr [.num 1, .num (-20), .str "a\"b", .bool true]) := by rfl

example : Json.stringify (.obj [("k", .num 13), ("m", .null)]) =
    "\x7b\"k\":13,\"m\":null\x7d" := by
  simp only [Json.stringify, stringifyChars_obj, stringifyChars_num,
    stringifyChars_null, strLitChars, escList, List.flatMap_cons, List.flatMap_nil,
    List.map_cons, List.map_nil]
  rw [show escapeChar 'k' = ['k'] from rfl, show escapeChar 'm' = ['m'] from rfl]
  rw [show intToChars 13 = natToChars 13 from rfl]
  rw [natToChars, natToChars]
  norm_num [digitChar, List.intercalate]

theorem escList_cons (c : Char) (cs : List Char) :
    escList (c :: cs) = escapeChar c ++ escList cs := rfl

theorem parseStr_plain (c : Char) (h1 : c ≠ '"') (h2 : c ≠ '\\')
    (acc rest : List Char) :
    parseStr acc (c :: rest) = parseStr (acc ++ [c]) rest := by
  rw [parseStr.eq_def]
  simp only [if_neg h1, if_neg h2]

theorem parseStr_escape (e u : Char) (he : e ≠ 'u') (h : unescapeChar e = some u)
    (acc rest : List Char) :
    parseStr acc ('\\' :: e :: rest) = parseStr (acc ++ [u]) rest := by
  rw [parseStr.eq_def]
  simp +decide only [reduceIte]
  split
  · rename_i heq
    injection heq with hx _
    exact absurd hx he
  · rename_i x heq
    injection heq with hx hy
    subst hx
    subst hy
    rw [h]
  · rename_i heq
    cases heq

theorem hexVal_hexDigitChar (n : Nat) (h : n < 16) :
    hexVal (hexDigitChar n) = some n := by
  interval_cases n <;> decide

theorem parseStr_unicode (c : Char) (hc : c.toNat < 32) (acc rest : List Char) :
    parseStr acc ('\\' :: 'u' :: '0' :: '0' :: hexDigitChar (c.toNat / 16) ::
      hexDigitChar (c.toNat % 16) :: rest) = parseStr (acc ++ [c]) rest := by
  rw [parseStr.eq_def]
  simp +decide only [reduceIte]
  rw [hexVal_hexDigitChar _ (by omega), hexVal_hexDigitChar _ (by omega),
    show hexVal '0' = some 0 from rfl]
  simp only []
  have harith : ((0 * 16 + 0) * 16 + c.toNat / 16) * 16 + c.toNat % 16 = c.toNat := by
    omega
  rw [harith, Char.ofNat_toNat]

theorem parseStr_escList (cs : List Char) : ∀ (acc rest : List Char),
    parseStr acc (escList cs ++ '"' :: rest) = some (String.mk (acc ++ cs), rest) := by
  induction cs with
  | nil =>
    intro acc rest
    rw [show escList [] = [] from rfl, List.nil_append, parseStr.eq_def]
    simp +decide only [reduceIte, List.append_nil]
  | cons c cs ih =>
    intro acc rest
    rw [escList_cons, List.append_assoc]
    by_cases h1 : c = '"'
    · subst h1
      rw [show escapeChar '"' = ['\\', '"'] from rfl,
        show (['\\', '"'] : List Char) ++ (escList cs ++ '"' :: rest) =
          '\\' :: '"' :: (escList cs ++ '"' :: rest) from rfl,
        parseStr_escape '"' '"' (by decide) (by decide), ih]
      simp
    · by_cases h2 : c = '\\'
      · subst h2
        rw [show escapeChar '\\' = ['\\', '\\'] from rfl,
          show (['\\', '\\'] : List Char) ++ (escList cs ++ '"' :: rest) =
            '\\' :: '\\' :: (escList cs ++ '"' :: rest) from rfl,
          parseStr_escape '\\' '\\' (by decide) (by decide), ih]
        simp
      · by_cases h3 : c = '\n'
        · subst h3
          rw [show escapeChar '\n' = ['\\', 'n'] from rfl,
            show (['\\', 'n'] : List Char) ++ (escList cs ++ '"' :: rest) =
              '\\' :: 'n' :: (escList cs ++ '"' :: rest) from rfl,
            parseStr_escape 'n' '\n' (by decide) (by decide), ih]
          simp
        · by_cases h4 : c = '\t'
          · subst h4
            rw [show escapeChar '\t' = ['\\', 't'] from rfl,
              show (['\\', 't'] : List Char) ++ (escList cs ++ '"' :: rest) =
                '\\' :: 't' :: (escList cs ++ '"' :: rest) from rfl,
              parseStr_escape 't' '\t' (by decide) (by decide), ih]
            simp
          · by_cases h5 : c = '\r'
            · subst h5
              rw [show escapeChar '\r' = ['\\', 'r'] from rfl,
                show (['\\', 'r'] : List Char) ++ (escList cs ++ '"' :: rest) =
                  '\\' :: 'r' :: (escList cs ++ '"' :: rest) from rfl,
                parseStr_escape 'r' '\r' (by decide) (by decide), ih]
              simp
            · by_cases h6 : c = '\x08'
              · subst h6
                rw [show escapeChar '\x08' = ['\\', 'b'] from rfl,
                  show (['\\', 'b'] : List Char) ++ (escList cs ++ '"' :: rest) =
                    '\\' :: 'b' :: (escList cs ++ '"' :: rest) from rfl,
                  parseStr_escape 'b' '\x08' (by decide) (by decide), ih]
                simp
              · by_cases h7 : c = '\x0c'
                · subst h7
                  rw [show escapeChar '\x0c' = ['\\', 'f'] from rfl,
                    show (['\\', 'f'] : List Char) ++ (escList cs ++ '"' :: rest) =
                      '\\' :: 'f' :: (escList cs ++ '"' :: rest) from rfl,
                    parseStr_escape 'f' '\x0c' (by decide) (by decide), ih]
                  simp
                · by_cases h8 : c.toNat < 32
                  · rw [show escapeChar c = ['\\', 'u', '0', '0',
                        hexDigitChar (c.toNat / 16), hexDigitChar (c.toNat % 16)] from by
                      unfold escapeChar
                      rw [if_neg h1, if_neg h2, if_neg h3, if_neg h4, if_neg h5,
                        if_neg h6, if_neg h7, if_pos h8]]
                    rw [List.cons_append, List.cons_append, List.cons_append,
                      List.cons_append, List.cons_append, List.cons_append,
                      List.nil_append]
                    rw [parseStr_unicode c h8, ih]
                    simp
                  · rw [show escapeChar c = [c] from by
                        unfold escapeChar
                        rw [if_neg h1, if_neg h2, if_neg h3, if_neg h4, if_neg h5,
                          if_neg h6, if_neg h7, if_neg h8],
                      List.singleton_append, parseStr_plain c h1 h2, ih]
                    simp

theorem digitChar_toNat (d : Nat) (h : d < 10) : (digitChar d).toNat = 48 + d := by
  interval_cases d <;> decide

theorem digitChar_isDigit (d : Nat) (h : d < 10) : (digitChar d).isDigit = true := by
  interval_cases d <;> decide

theorem natToChars_all_digits (n : Nat) : ∀ c ∈ natToChars n, c.isDigit = true := by
  induction n using Nat.strong_induction_on with
  | _ n ih =>
    rw [natToChars]
    split
    · rename_i h
      intro c hc
      rw [List.mem_singleton] at hc
      subst hc
      exact digitChar_isDigit n h
    · rename_i h
      intro c hc
      rw [List.mem_append] at hc
      rcases hc with hc | hc
      · exact ih (n / 10) (Nat.div_lt_self (by omega) (by omega)) c hc
      · rw [List.mem_singleton] at hc
        subst hc
        exact digitChar_isDigit _ (Nat.mod_lt _ (by omega))

theorem natToChars_ne_nil (n : Nat) : natToChars n ≠ [] := by
  rw [natToChars]
  split <;> simp

theorem natToChars_head (n : Nat) :
    ∃ c tl, natToChars n = c :: tl ∧ c.isDigit = true := by
  cases hn : natToChars n with
  | nil => exact absurd hn (natToChars_ne_nil n)
  | cons c tl =>
    exact ⟨c, tl, rfl, natToChars_all_digits n c (hn ▸ List.mem_cons_self c tl)⟩

theorem parseDigits_digit (acc d : Nat) (h : d < 10) (rest : List Char) :
    parseDigits acc (digitChar d :: rest) = parseDigits (acc * 10 + d) rest := by
  rw [parseDigits.eq_def]
  simp only [digitChar_isDigit d h, reduceIte]
  rw [digitChar_toNat d h]
  congr 1
  omega

theorem parseDigits_append (n : Nat) : ∀ (acc : Nat) (rest : List Char),
    parseDigits acc (natToChars n ++ rest) =
      parseDigits (acc * 10 ^ (natToChars n).length + n) rest := by
  induction n using Nat.strong_induction_on with
  | _ n ih =>
    intro acc rest
    rw [natToChars]
    split
    · rename_i h
      rw [List.singleton_append, parseDigits_digit acc n h]
      norm_num
    · rename_i h
      rw [List.append_assoc, List.singleton_append,
        ih (n / 10) (Nat.div_lt_self (by omega) (by omega)),
        parseDigits_digit _ _ (Nat.mod_lt _ (by omega))]
      congr 1
      rw [List.length_append, List.length_singleton, pow_succ]
      have hdm := Nat.div_add_mod n 10
      ring_nf
      omega

theorem parseDigits_notDigit (acc : Nat) (rest : List Char)
    (h : headIsDigit rest = false) : parseDigits acc rest = (acc, rest) := by
  cases rest with
  | nil => rfl
  | cons c tl =>
    rw [headIsDigit] at h
    rw [parseDigits.eq_def]
    simp [h]

theorem parseDigits_natToChars (n : Nat) (rest : List Char)
    (h : headIsDigit rest = false) :
    parseDigits 0 (natToChars n ++ rest) = (n, rest) := by
  rw [parseDigits_append, parseDigits_notDigit _ _ h]
  norm_num

theorem String.mk_data (s : String) : String.mk s.data = s := rfl

/-- A digit character is none of the characters that select another branch
of `parseValue`. -/
theorem isDigit_markers (c : Char) (h : c.isDigit = true) :
    c ≠ 'n' ∧ c ≠ 't' ∧ c ≠ 'f' ∧ c ≠ '"' ∧ c ≠ '[' ∧ c ≠ '\x7b' ∧ c ≠ '-' ∧
      c ≠ ']' ∧ c ≠ '\x7d' ∧ c ≠ ',' :=
  ⟨fun hc => absurd (hc ▸ h) (by decide), fun hc => absurd (hc ▸ h) (by decide),
   fun hc => absurd (hc ▸ h) (by decide), fun hc => absurd (hc ▸ h) (by decide),
   fun hc => absurd (hc ▸ h) (by decide), fun hc => absurd (hc ▸ h) (by decide),
   fun hc => absurd (hc ▸ h) (by decide), fun hc => absurd (hc ▸ h) (by decide),
   fun hc => absurd (hc ▸ h) (by decide), fun hc => absurd (hc ▸ h) (by decide)⟩

/-- The first character of a serialized value is never a closing delimiter. -/
theorem stringifyChars_head (v : Json) :
    ∃ c tl, stringifyChars v = c :: tl ∧ c ≠ ']' ∧ c ≠ '\x7d' := by
  cases v with
  | null => exact ⟨'n', _, stringifyChars_null, by decide, by decide⟩
  | bool b =>
    cases b with
    | true =>
      refine ⟨'t', ['r', 'u', 'e'], ?_, by decide, by decide⟩
      rw [stringifyChars_bool]
      simp
    | false =>
      refine ⟨'f', ['a', 'l', 's', 'e'], ?_, by decide, by decide⟩
      rw [stringifyChars_bool]
      simp
  | num n =>
    rw [stringifyChars_num, intToChars]
    by_cases hn : n < 0
    · rw [if_pos hn]
      exact ⟨'-', _, rfl, by decide, by decide⟩
    · rw [if_neg hn]
      obtain ⟨c, tl, hc, hd⟩ := natToChars_head n.natAbs
      obtain ⟨_, _, _, _, _, _, _, h8, h9, _⟩ := isDigit_markers c hd
      exact ⟨c, tl, hc, h8, h9⟩
  | str s =>
    refine ⟨'"', escList s.data ++ ['"'], ?_, by decide, by decide⟩
    rw [stringifyChars_str, strLitChars]
    simp
  | arr xs =>
    refine ⟨'[', List.intercalate [','] (xs.map stringifyChars) ++ [']'], ?_,
      by decide, by decide⟩
    rw [stringifyChars_arr]
    simp
  | obj fs =>
    refine ⟨'\x7b', List.intercalate [',']
        (fs.map (fun kv => strLitChars kv.1 ++ ':' :: stringifyChars kv.2)) ++ ['\x7d'],
      ?_, by decide, by decide⟩
    rw [stringifyChars_obj]
    simp

/-- The comma-separated rendering of an array's elements. -/
def elemsChars (xs : List Json) : List Char :=
  List.intercalate [','] (xs.map stringifyChars)

/-- The comma-separated rendering of an object's members. -/
def fieldsChars (fs : List (String × Json)) : List Char :=
  List.intercalate [',']
    (fs.map (fun kv => strLitChars kv.1 ++ ':' :: stringifyChars kv.2))

theorem stringifyChars_arr_elems (xs : List Json) :
    stringifyChars (.arr xs) = '[' :: elemsChars xs ++ [']'] := stringifyChars_arr xs

theorem stringifyChars_obj_fields (fs : List (String × Json)) :
    stringifyChars (.obj fs) = '\x7b' :: fieldsChars fs ++ ['\x7d'] :=
  stringifyChars_obj fs

theorem elemsChars_single (x : Json) : elemsChars [x] = stringifyChars x := by
  simp [elemsChars, List.intercalate]

theorem elemsChars_cons_cons (x y : Json) (tl : List Json) :
    elemsChars (x :: y :: tl) = stringifyChars x ++ ',' :: elemsChars (y :: tl) := by
  simp [elemsChars, List.intercalate, List.intersperse]

theorem fieldsChars_single (k : String) (v : Json) :
    fieldsChars [(k, v)] = strLitChars k ++ ':' :: stringifyChars v := by
  simp [fieldsChars, List.intercalate]

theorem fieldsChars_cons_cons (k : String) (v : Json) (p : String × Json)
    (tl : List (String × Json)) :
    fieldsChars ((k, v) :: p :: tl) =
      (strLitChars k ++ ':' :: stringifyChars v) ++ ',' :: fieldsChars (p :: tl) := by
  simp [fieldsChars, List.intercalate, List.intersperse]

theorem parseValue_null (fuel : Nat) (rest : List Char) :
    parseValue (fuel + 1) ('n' :: 'u' :: 'l' :: 'l' :: rest) = some (.null, rest) := rfl

theorem parseValue_true (fuel : Nat) (rest : List Char) :
    parseValue (fuel + 1) ('t' :: 'r' :: 'u' :: 'e' :: rest) =
      some (.bool true, rest) := rfl

theorem parseValue_false (fuel : Nat) (rest : List Char) :
    parseValue (fuel + 1) ('f' :: 'a' :: 'l' :: 's' :: 'e' :: rest) =
      some (.bool false, rest) := rfl

theorem parseValue_arr_nil (fuel : Nat) (rest : List Char) :
    parseValue (fuel + 1) ('[' :: ']' :: rest) = some (.arr [], rest) := rfl

theorem parseValue_obj_nil (fuel : Nat) (rest : List Char) :
    parseValue (fuel + 1) ('\x7b' :: '\x7d' :: rest) = some (.obj [], rest) := rfl

theorem parseValue_str (fuel : Nat) (rest : List Char) (s : String) (r : List Char)
    (h : parseStr [] rest = some (s, r)) :
    parseValue (fuel + 1) ('"' :: rest) = some (.str s, r) := by
  simp only [parseValue]
  simp +decide only [reduceIte]
  rw [h]

theorem parseValue_digit (fuel : Nat) (c : Char) (rest : List Char)
    (h : c.isDigit = true) :
    parseValue (fuel + 1) (c :: rest) =
      some (.num ((parseDigits 0 (c :: rest)).1 : Int),
        (parseDigits 0 (c :: rest)).2) := by
  obtain ⟨h1, h2, h3, h4, h5, h6, h7, _, _, _⟩ := isDigit_markers c h
  simp only [parseValue]
  simp only [if_neg h1, if_neg h2, if_neg h3, if_neg h4, if_neg h5, if_neg h6,
    if_neg h7, h, if_pos]

theorem parseValue_neg (fuel : Nat) (c : Char) (rest : List Char)
    (h : c.isDigit = true) :
    parseValue (fuel + 1) ('-' :: c :: rest) =
      some (.num (-((parseDigits 0 (c :: rest)).1 : Int)),
        (parseDigits 0 (c :: rest)).2) := by
  simp only [parseValue]
  simp +decide only [reduceIte]
  simp only [h, if_pos]

theorem parseValue_arr_go (fuel : Nat) (d : Char) (tl : List Char)
    (vs : List Json) (r : List Char) (hd : d ≠ ']')
    (h : parseElems fuel (d :: tl) = some (vs, r)) :
    parseValue (fuel + 1) ('[' :: d :: tl) = some (.arr vs, r) := by
  simp only [parseValue]
  simp +decide only [reduceIte]
  rw [if_neg hd, h]

theorem parseValue_obj_go (fuel : Nat) (d : Char) (tl : List Char)
    (fs : List (String × Json)) (r : List Char) (hd : d ≠ '\x7d')
    (h : parseFields fuel (d :: tl) = some (fs, r)) :
    parseValue (fuel + 1) ('\x7b' :: d :: tl) = some (.obj fs, r) := by
  simp only [parseValue]
  simp +decide only [reduceIte]
  rw [if_neg hd, h]

theorem parseElems_step_last (fuel : Nat) (cs : List Char) (v : Json)
    (rest : List Char) (h1 : parseValue fuel cs = some (v, ']' :: rest)) :
    parseElems (fuel + 1) cs = some ([v], rest) := by
  simp only [parseElems]
  rw [h1]
  rfl

theorem parseElems_step_cons (fuel : Nat) (cs : List Char) (v : Json)
    (rest : List Char) (vs : List Json) (r : List Char)
    (h1 : parseValue fuel cs = some (v, ',' :: rest))
    (h2 : parseElems fuel rest = some (vs, r)) :
    parseElems (fuel + 1) cs = some (v :: vs, r) := by
  simp only [parseElems]
  rw [h1]
  show (match parseElems fuel rest with
    | some (vs, r) => some (v :: vs, r)
    | none => none) = some (v :: vs, r)
  rw [h2]

theorem parseFields_step_last (fuel : Nat) (krest : List Char) (k : String)
    (rest2 : List Char) (v : Json) (rest3 : List Char)
    (h1 : parseStr [] krest = some (k, ':' :: rest2))
    (h2 : parseValue fuel rest2 = some (v, '\x7d' :: rest3)) :
    parseFields (fuel + 1) ('"' :: krest) = some ([(k, v)], rest3) := by
  simp only [parseFields]
  rw [h1]
  show (match parseValue fuel rest2 with
    | some (v, ',' :: rest3) =>
      match parseFields fuel rest3 with
      | some (fs, r) => some ((k, v) :: fs, r)
      | none => none
    | some (v, '\x7d' :: rest3) => some ([(k, v)], rest3)
    | x => none) = some ([(k, v)], rest3)
  rw [h2]
  rfl

theorem parseFields_step_cons (fuel : Nat) (krest : List Char) (k : String)
    (rest2 : List Char) (v : Json) (rest3 : List Char)
    (fs : List (String × Json)) (r : List Char)
    (h1 : parseStr [] krest = some (k, ':' :: rest2))
    (h2 : parseValue fuel rest2 = some (v, ',' :: rest3))
    (h3 : parseFields fuel rest3 = some (fs, r)) :
    parseFields (fuel + 1) ('"' :: krest) = some ((k, v) :: fs, r) := by
  simp only [parseFields]
  rw [h1]
  show (match parseValue fuel rest2 with
    | some (v, ',' :: rest3) =>
      match parseFields fuel rest3 with
      | some (fs, r) => some ((k, v) :: fs, r)
      | none => none
    | some (v, '\x7d' :: rest3) => some ([(k, v)], rest3)
    | x => none) = some ((k, v) :: fs, r)
  rw [h2]
  show (match parseFields fuel rest3 with
    | some (fs, r) => some ((k, v) :: fs, r)
    | none => none) = some ((k, v) :: fs, r)
  rw [h3]
theorem strLit_shape (k : String) (X : List Char) :
    strLitChars k ++ X = '"' :: (escList k.data ++ '"' :: X) := by
  rw [strLitChars]
  simp

/-- Round-trip: a serialized value parses back to itself, given enough fuel;
stated simultaneously for values, array element lists and object member
lists. -/
theorem parse_round (fuel : Nat) :
    (∀ v rest, (stringifyChars v).length < fuel → headIsDigit rest = false →
        parseValue fuel (stringifyChars v ++ rest) = some (v, rest)) ∧
    (∀ xs rest, xs ≠ [] → (elemsChars xs).length + 1 < fuel →
        parseElems fuel (elemsChars xs ++ ']' :: rest) = some (xs, rest)) ∧
    (∀ fs rest, fs ≠ [] → (fieldsChars fs).length + 1 < fuel →
        parseFields fuel (fieldsChars fs ++ '\x7d' :: rest) = some (fs, rest)) := by
  induction fuel with
  | zero =>
    refine ⟨fun v rest h _ => absurd h (by omega),
            fun xs rest _ h => absurd h (by omega),
            fun fs rest _ h => absurd h (by omega)⟩
  | succ fuel ih =>
    obtain ⟨ihV, ihE, ihF⟩ := ih
    refine ⟨?_, ?_, ?_⟩
    · intro v rest hlen hrest
      cases v with
      | null =>
        rw [stringifyChars_null]
        exact parseValue_null fuel rest
      | bool b =>
        cases b with
        | false =>
          rw [show stringifyChars (.bool false) = ['f', 'a', 'l', 's', 'e'] from by
            rw [stringifyChars_bool]; simp]
          exact parseValue_false fuel rest
        | true =>
          rw [show stringifyChars (.bool true) = ['t', 'r', 'u', 'e'] from by
            rw [stringifyChars_bool]; simp]
          exact parseValue_true fuel rest
      | num n =>
        rw [stringifyChars_num, intToChars]
        by_cases hn : n < 0
        · rw [if_pos hn]
          obtain ⟨c, tl, hc, hd⟩ := natToChars_head n.natAbs
          rw [hc, List.cons_append, List.cons_append,
            parseValue_neg fuel c (tl ++ rest) hd,
            ← List.cons_append, ← hc, parseDigits_natToChars _ _ hrest]
          have hn2 : -((n.natAbs : Int)) = n := by omega
          simp only [hn2]
        · rw [if_neg hn]
          obtain ⟨c, tl, hc, hd⟩ := natToChars_head n.natAbs
          rw [hc, List.cons_append,
            parseValue_digit fuel c (tl ++ rest) hd,
            ← List.cons_append, ← hc, parseDigits_natToChars _ _ hrest]
          have hn2 : ((n.natAbs : Int)) = n := by omega
          simp only [hn2]
      | str s =>
        rw [stringifyChars_str, strLit_shape]
        have hps := parseStr_escList s.data [] rest
        rw [List.nil_append, String.mk_data] at hps
        exact parseValue_str fuel _ s rest hps
      | arr xs =>
        cases xs with
        | nil =>
          rw [show stringifyChars (.arr []) = ['[', ']'] from by
            rw [stringifyChars_arr]; simp [List.intercalate]]
          exact parseValue_arr_nil fuel rest
        | cons x xs' =>
          rw [stringifyChars_arr_elems] at hlen ⊢
          obtain ⟨c, tl, hc, hc1, _⟩ := stringifyChars_head x
          have hE : ∃ tl2, elemsChars (x :: xs') = c :: tl2 := by
            cases xs' with
            | nil => exact ⟨tl, by rw [elemsChars_single, hc]⟩
            | cons y tl' =>
              exact ⟨tl ++ ',' :: elemsChars (y :: tl'), by
                rw [elemsChars_cons_cons, hc, List.cons_append]⟩
          obtain ⟨tl2, hE⟩ := hE
          have hshape : ('[' :: elemsChars (x :: xs') ++ [']']) ++ rest
              = '[' :: c :: (tl2 ++ ']' :: rest) := by
            rw [hE]
            simp
          rw [hshape]
          refine parseValue_arr_go fuel c _ (x :: xs') rest hc1 ?_
          have hback : c :: (tl2 ++ ']' :: rest)
              = elemsChars (x :: xs') ++ ']' :: rest := by
            rw [hE]
            simp
          rw [hback]
          refine ihE (x :: xs') rest (by simp) ?_
          simp only [List.length_cons, List.length_append,
            List.length_singleton] at hlen
          omega
      | obj fs =>
        cases fs with
        | nil =>
          rw [show stringifyChars (.obj []) = ['\x7b', '\x7d'] from by
            rw [stringifyChars_obj]; simp [List.intercalate]]
          exact parseValue_obj_nil fuel rest
        | cons p fs' =>
          obtain ⟨k, v⟩ := p
          rw [stringifyChars_obj_fields] at hlen ⊢
          have hF : ∃ tl2, fieldsChars ((k, v) :: fs') = '"' :: tl2 := by
            cases fs' with
            | nil =>
              exact ⟨escList k.data ++ '"' :: ':' :: stringifyChars v, by
                rw [fieldsChars_single, strLit_shape]⟩
            | cons q tl' =>
              refine ⟨escList k.data ++ '"' ::
                (':' :: stringifyChars v ++ ',' :: fieldsChars (q :: tl')), ?_⟩
              rw [fieldsChars_cons_cons, List.append_assoc, strLit_shape]
          obtain ⟨tl2, hF⟩ := hF
          have hshape : ('\x7b' :: fieldsChars ((k, v) :: fs') ++ ['\x7d']) ++ rest
              = '\x7b' :: '"' :: (tl2 ++ '\x7d' :: rest) := by
            rw [hF]
            simp
          rw [hshape]
          refine parseValue_obj_go fuel '"' _ ((k, v) :: fs') rest (by decide) ?_
          have hback : '"' :: (tl2 ++ '\x7d' :: rest)
              = fieldsChars ((k, v) :: fs') ++ '\x7d' :: rest := by
            rw [hF]
            simp
          rw [hback]
          refine ihF ((k, v) :: fs') rest (by simp) ?_
          simp only [List.length_cons, List.length_append,
            List.length_singleton] at hlen
          omega
    · intro xs rest hne hlen
      cases xs with
      | nil => exact absurd rfl hne
      | cons x xs' =>
        cases xs' with
        | nil =>
          rw [elemsChars_single] at hlen ⊢
          exact parseElems_step_last fuel _ x rest
            (ihV x (']' :: rest) (by omega) rfl)
        | cons y tl =>
          rw [elemsChars_cons_cons] at hlen ⊢
          have hshape : (stringifyChars x ++ ',' :: elemsChars (y :: tl)) ++ ']' :: rest
              = stringifyChars x ++ ',' :: (elemsChars (y :: tl) ++ ']' :: rest) := by
            simp
          rw [hshape]
          simp only [List.length_append, List.length_cons] at hlen
          exact parseElems_step_cons fuel _ x _ (y :: tl) rest
            (ihV x _ (by omega) rfl)
            (ihE (y :: tl) rest (by simp) (by omega))
    · intro fs rest hne hlen
      cases fs with
      | nil => exact absurd rfl hne
      | cons p fs' =>
        obtain ⟨k, v⟩ := p
        cases fs' with
        | nil =>
          rw [fieldsChars_single] at hlen ⊢
          have hlk : (strLitChars k).length = (escList k.data).length + 2 := by
            rw [strLitChars]
            simp
          simp only [List.length_append, List.length_cons] at hlen
          have hshape : (strLitChars k ++ ':' :: stringifyChars v) ++ '\x7d' :: rest
              = '"' :: (escList k.data ++ '"' ::
                (':' :: (stringifyChars v ++ '\x7d' :: rest))) := by
            rw [strLitChars]
            simp
          rw [hshape]
          have hps := parseStr_escList k.data []
            (':' :: (stringifyChars v ++ '\x7d' :: rest))
          rw [List.nil_append, String.mk_data] at hps
          exact parseFields_step_last fuel _ k _ v rest hps
            (ihV v ('\x7d' :: rest) (by omega) rfl)
        | cons q tl =>
          rw [fieldsChars_cons_cons] at hlen ⊢
          have hlk : (strLitChars k).length = (escList k.data).length + 2 := by
            rw [strLitChars]
            simp
          simp only [List.length_append, List.length_cons] at hlen
          have hshape : ((strLitChars k ++ ':' :: stringifyChars v) ++
                ',' :: fieldsChars (q :: tl)) ++ '\x7d' :: rest
              = '"' :: (escList k.data ++ '"' :: (':' :: (stringifyChars v ++
                ',' :: (fieldsChars (q :: tl) ++ '\x7d' :: rest)))) := by
            rw [strLitChars]
            simp
          rw [hshape]
          have hps := parseStr_escList k.data []
            (':' :: (stringifyChars v ++ ',' :: (fieldsChars (q :: tl) ++
              '\x7d' :: rest)))
          rw [List.nil_append, String.mk_data] at hps
          exact parseFields_step_cons fuel _ k _ v _ (q :: tl) rest hps
            (ihV v _ (by omega) rfl)
            (ihF (q :: tl) rest (by simp) (by omega))

/-- Round-trip of the platform model: `JSON.parse(JSON.stringify(v))`
recovers `v` exactly. -/
theorem Json.parse_stringify (v : Json) : Json.parse (Json.stringify v) = some v := by
  rw [Json.stringify]
  simp only [Json.parse]
  have hr := (parse_round ((stringifyChars v).length + 1)).1 v [] (by omega) rfl
  rw [List.append_nil] at hr
  rw [show (String.mk (stringifyChars v)).length = (stringifyChars v).length from rfl,
    hr]

/-- JavaScript falsiness on JSON values, as tested by `args || {}`. -/
def Json.isFalsy : Json → Bool
  | .null => true
  | .bool b => !b
  | .num n => n == 0
  | .str s => s == ""
  | _ => false

/-- Model of `args || {}` applied to `request.params.arguments`; `none`
models JavaScript `undefined`. -/
def jsOrEmptyObj (args : Option Json) : Json :=
  match args with
  | none => .obj []
  | some a => if a.isFalsy then .obj [] else a

/-- A thrown JavaScript value as the handler's `catch` observes it:
`errorMessage` is `error instanceof Error ? error.message : String(error)`;
`stack` is the optional stack trace (`none` for non-`Error` values; the
stack text itself is opaque runtime data). -/
structure JsError where
  message : String
  stack : Option String
deriving Repr, DecidableEq

/-- One content item of a tool-result envelope: `{ type: "text", text }`. -/
structure ContentItem where
  type : String
  text : String
deriving Repr

/-- The envelope the CallTool handler returns: `{ content, isError }`. -/
structure ToolResult where
  content : List ContentItem
  isError : Bool
deriving Repr

/-- The payloads of the three `sendLoggingMessage` calls in the CallTool
handler (timestamps omitted: they are opaque clock reads). -/
inductive LogEvent where
  | start (message : String) (tool : String) (args : Option Json)
  | success (message : String) (tool : String) (resultSize : Nat)
  | failure (message : String) (tool : String) (args : Option Json)
      (error : String) (stack : Option String)
deriving Repr

/-- Observable effects of one CallTool invocation, in program order:
logging calls and the backend (`handleSocrataTool`) invocation. -/
inductive Effect where
  | log (level : String) (event : LogEvent)
  | backendCall (args : Json)
deriving Repr

/-- The `CallToolRequestSchema` handler of `initializeServer` (identical in
`src/app.ts` and the registry variant): logs a start event; routes
`get_data` to the backend client with `args || {}`; on success returns
`{content: [{type: "text", text: JSON.stringify(result)}], isError: false}`
and logs the serialized result's string length; any other tool name throws
`Unknown tool: <name>`; the catch block logs the failure and returns
`{content: [{type: "text", text: "Error: <message>"}], isError: true}`.
The backend is an oracle parameter; the returned trace records the effects
in order. -/
def callToolHandler (backend : Json → Except JsError Json)
    (name : String) (args : Option Json) : ToolResult × List Effect :=
  let startLog := Effect.log "info"
    (.start ("Handling tool call: " ++ name) name args)
  if name = "get_data" then
    match backend (jsOrEmptyObj args) with
    | .ok result =>
      let text := Json.stringify result
      (⟨[⟨"text", text⟩], false⟩,
        [startLog, .backendCall (jsOrEmptyObj args),
          .log "info" (.success ("Successfully executed tool: " ++ name) name
            text.length)])
    | .error e =>
      (⟨[⟨"text", "Error: " ++ e.message⟩], true⟩,
        [startLog, .backendCall (jsOrEmptyObj args),
          .log "error" (.failure ("Error handling tool " ++ name ++ ": " ++ e.message)
            name args e.message e.stack)])
  else
    let errorMessage := "Unknown tool: " ++ name
    (⟨[⟨"text", "Error: " ++ errorMessage⟩], true⟩,
      [startLog,
        .log "error" (.failure ("Error handling tool " ++ name ++ ": " ++ errorMessage)
          name args errorMessage none)])

/-- An effect is the start-of-invocation log event. -/
def Effect.isStartLog : Effect → Bool
  | .log _ (.start _ _ _) => true
  | _ => false

/-- An effect is an outcome (success or failure) log event. -/
def Effect.isOutcomeLog : Effect → Bool
  | .log _ (.success _ _ _) => true
  | .log _ (.failure _ _ _ _ _) => true
  | _ => false

/-- C1: invoking `get_data` with arguments on which the backend succeeds
yields a success envelope (`isError: false`) whose text is the JSON
serialization of the backend's value, and parsing that text recovers
exactly that value. -/
theorem c1_get_data_success (backend : Json → Except JsError Json)
    (args : Option Json) (v : Json)
    (h : backend (jsOrEmptyObj args) = .ok v) :
    (callToolHandler backend "get_data" args).1 =
      ⟨[⟨"text", Json.stringify v⟩], false⟩ ∧
    Json.parse (Json.stringify v) = some v := by
  constructor
  · simp only [callToolHandler, reduceIte, h]
  · exact Json.parse_stringify v

theorem c1_get_data_success_witness :
    (callToolHandler (fun _ => .ok (.num 7)) "get_data" none).1 =
      ⟨[⟨"text", Json.stringify (.num 7)⟩], false⟩ ∧
    Json.parse (Json.stringify (.num 7)) = some (.num 7) :=
  c1_get_data_success (fun _ => .ok (.num 7)) none (.num 7) rfl

/-- C2: an unknown tool name yields a failure envelope whose text surfaces
the message `Unknown tool: <name>` as `Error: Unknown tool: <name>`, and
the backend client is never invoked. -/
theorem c2_unknown_tool (backend : Json → Except JsError Json)
    (name : String) (args : Option Json) (h : name ≠ "get_data") :
    (callToolHandler backend name args).1 =
      ⟨[⟨"text", "Error: " ++ ("Unknown tool: " ++ name)⟩], true⟩ ∧
    ∀ a, Effect.backendCall a ∉ (callToolHandler backend name args).2 := by
  constructor
  · simp only [callToolHandler, if_neg h]
  · intro a
    simp only [callToolHandler, if_neg h]
    simp

theorem c2_unknown_tool_witness :
    (callToolHandler (fun _ => .ok .null) "does_not_exist" none).1 =
      ⟨[⟨"text", "Error: " ++ ("Unknown tool: " ++ "does_not_exist")⟩], true⟩ ∧
    ∀ a, Effect.backendCall a ∉
      (callToolHandler (fun _ => .ok .null) "does_not_exist" none).2 :=
  c2_unknown_tool (fun _ => .ok .null) "does_not_exist" none (by decide)

/-- C3: a backend failure with message `m` is caught and surfaced as an
`isError: true` envelope with text `Error: <m>`, and for every invocation
the handler returns exactly one envelope (it is a total function and never
throws). -/
theorem c3_backend_failure_totality (backend : Json → Except JsError Json)
    (name : String) (args : Option Json) :
    (∀ e, name = "get_data" → backend (jsOrEmptyObj args) = .error e →
      (callToolHandler backend name args).1 =
        ⟨[⟨"text", "Error: " ++ e.message⟩], true⟩) ∧
    (∃! res : ToolResult × List Effect, callToolHandler backend name args = res) := by
  constructor
  · intro e hname he
    subst hname
    simp only [callToolHandler, reduceIte, he]
  · exact ⟨callToolHandler backend name args, rfl, fun r hr => hr.symm⟩

theorem c3_backend_failure_totality_witness :
    (callToolHandler (fun _ => .error ⟨"boom", none⟩) "get_data" none).1 =
      ⟨[⟨"text", "Error: " ++ ("boom" : String)⟩], true⟩ :=
  (c3_backend_failure_totality (fun _ => .error ⟨"boom", none⟩) "get_data" none).1
    ⟨"boom", none⟩ rfl rfl

/-- C9 (amended): the success log's `resultSize` equals the JavaScript
string length (characters, not bytes) of the JSON-serialized result, and
for every invocation the start log event precedes the outcome log event
(the trace begins with the start event and ends with the outcome event). -/
theorem c9_result_size_ordering (backend : Json → Except JsError Json)
    (name : String) (args : Option Json) :
    (∀ v, name = "get_data" → backend (jsOrEmptyObj args) = .ok v →
      (callToolHandler backend name args).2 =
        [Effect.log "info" (.start ("Handling tool call: " ++ name) name args),
         .backendCall (jsOrEmptyObj args),
         .log "info" (.success ("Successfully executed tool: " ++ name) name
           (Json.stringify v).length)]) ∧
    (∃ mid last, (callToolHandler backend name args).2 =
        Effect.log "info" (.start ("Handling tool call: " ++ name) name args) ::
          (mid ++ [last]) ∧
      last.isOutcomeLog = true) := by
  constructor
  · intro v hname hv
    subst hname
    simp only [callToolHandler, reduceIte, hv]
  · by_cases hname : name = "get_data"
    · subst hname
      cases hv : backend (jsOrEmptyObj args) with
      | ok v =>
        refine ⟨[.backendCall (jsOrEmptyObj args)],
          .log "info" (.success ("Successfully executed tool: " ++ "get_data")
            "get_data" (Json.stringify v).length), ?_, rfl⟩
        simp only [callToolHandler, reduceIte, hv]
        rfl
      | error e =>
        refine ⟨[.backendCall (jsOrEmptyObj args)],
          .log "error" (.failure ("Error handling tool " ++ "get_data" ++ ": " ++
            e.message) "get_data" args e.message e.stack), ?_, rfl⟩
        simp only [callToolHandler, reduceIte, hv]
        rfl
    · refine ⟨[], .log "error" (.failure ("Error handling tool " ++ name ++ ": " ++
        ("Unknown tool: " ++ name)) name args ("Unknown tool: " ++ name) none),
        ?_, rfl⟩
      simp only [callToolHandler, if_neg hname]
      rfl

theorem c9_result_size_ordering_witness :
    (callToolHandler (fun _ => .ok (.num 7)) "get_data" none).2 =
      [Effect.log "info" (.start ("Handling tool call: " ++ "get_data")
        "get_data" none),
       .backendCall (jsOrEmptyObj none),
       .log "info" (.success ("Successfully executed tool: " ++ "get_data")
         "get_data" (Json.stringify (.num 7)).length)] :=
  (c9_result_size_ordering (fun _ => .ok (.num 7)) "get_data" none).1 (.num 7) rfl rfl

/-- C9 counterexample: for the backend value `"é"` the logged `resultSize`
is 3 (the string length of `"\"é\""`), but the UTF-8 byte length of the
serialization is 4, so `resultSize` is not the byte length. -/
theorem c9_bytelength_counterexample :
    (callToolHandler (fun _ => .ok (.str "é")) "get_data" none).2 =
      [Effect.log "info" (.start "Handling tool call: get_data" "get_data" none),
       .backendCall (.obj []),
       .log "info" (.success "Successfully executed tool: get_data" "get_data" 3)] ∧
    (Json.stringify (.str "é")).utf8ByteSize = 4 ∧ (3 : Nat) ≠ 4 := by
  have hs : Json.stringify (.str "é") = "\"é\"" := by
    rw [Json.stringify, stringifyChars_str]
    rfl
  refine ⟨?_, by rw [hs]; rfl, by decide⟩
  simp only [callToolHandler, reduceIte, hs]
  rfl

/-- Portal metadata returned by `getPortalInfo` (only the field the core
reads). -/
structure PortalInfo where
  title : String
deriving Repr, DecidableEq

/-- A tool descriptor as consumed from the Tool Catalog: name, description,
declarative input schema. -/
structure Tool where
  name : String
  description : String
  inputSchema : Json
deriving Repr

/-- Catalog enrichment `enhanceToolsWithPortalInfo`: copies each tool and sets the
copy's description to the original prefixed with the portal title
(`` `[${portalInfo.title}] ${tool.description}` ``). Being a pure function on
immutable values, it leaves the input descriptors untouched. -/
def enhanceToolsWithPortalInfo (tools : List Tool) (portalInfo : PortalInfo) :
    List Tool :=
  tools.map (fun tool =>
    { tool with
      description := "[" ++ portalInfo.title ++ "] " ++ tool.description })

/-- JS `Map.get` on an association list kept in insertion order. -/
def mapGet : List (String × Nat) → String → Option Nat
  | [], _ => none
  | kv :: tl, k => if kv.1 = k then some kv.2 else mapGet tl k

/-- JS `Map.set`: replace the entry in place if the key exists, else append. -/
def mapSet : List (String × Nat) → String → Nat → List (String × Nat)
  | [], k, v => [(k, v)]
  | kv :: tl, k, v => if kv.1 = k then (k, v) :: tl else kv :: mapSet tl k v

/-- JS `Map.delete`: drop the key's entry (a no-op when absent). -/
def mapDelete : List (String × Nat) → String → List (String × Nat)
  | [], _ => []
  | kv :: tl, k => if kv.1 = k then mapDelete tl k else kv :: mapDelete tl k

/-- The keys of a session map, in order. -/
def keysOf (m : List (String × Nat)) : List String := m.map Prod.fst

theorem mapGet_mapDelete_self (m : List (String × Nat)) (k : String) :
    mapGet (mapDelete m k) k = none := by
  induction m with
  | nil => rfl
  | cons kv tl ih =>
    by_cases h : kv.1 = k
    · rw [mapDelete, if_pos h]
      exact ih
    · rw [mapDelete, if_neg h, mapGet, if_neg h]
      exact ih

theorem mapDelete_mapDelete (m : List (String × Nat)) (k : String) :
    mapDelete (mapDelete m k) k = mapDelete m k := by
  induction m with
  | nil => rfl
  | cons kv tl ih =>
    by_cases h : kv.1 = k
    · rw [mapDelete, if_pos h]
      exact ih
    · rw [mapDelete, if_neg h, mapDelete, if_neg h, ih]

theorem mapDelete_of_get_none (m : List (String × Nat)) (k : String)
    (h : mapGet m k = none) : mapDelete m k = m := by
  induction m with
  | nil => rfl
  | cons kv tl ih =>
    rw [mapGet] at h
    by_cases hk : kv.1 = k
    · rw [if_pos hk] at h
      cases h
    · rw [if_neg hk] at h
      rw [mapDelete, if_neg hk, ih h]

theorem mapDelete_mapSet_fresh (m : List (String × Nat)) (k : String) (v : Nat)
    (h : mapGet m k = none) : mapDelete (mapSet m k v) k = m := by
  induction m with
  | nil => simp [mapSet, mapDelete]
  | cons kv tl ih =>
    rw [mapGet] at h
    by_cases hk : kv.1 = k
    · rw [if_pos hk] at h
      cases h
    · rw [if_neg hk] at h
      rw [mapSet, if_neg hk, mapDelete, if_neg hk, ih h]

theorem length_mapSet_fresh (m : List (String × Nat)) (k : String) (v : Nat)
    (h : mapGet m k = none) : (mapSet m k v).length = m.length + 1 := by
  induction m with
  | nil => rfl
  | cons kv tl ih =>
    rw [mapGet] at h
    by_cases hk : kv.1 = k
    · rw [if_pos hk] at h
      cases h
    · rw [if_neg hk] at h
      rw [mapSet, if_neg hk, List.length_cons, List.length_cons, ih h]

theorem keysOf_mapSet_fresh (m : List (String × Nat)) (k : String) (v : Nat)
    (h : mapGet m k = none) : keysOf (mapSet m k v) = keysOf m ++ [k] := by
  induction m with
  | nil => rfl
  | cons kv tl ih =>
    rw [mapGet] at h
    by_cases hk : kv.1 = k
    · rw [if_pos hk] at h
      cases h
    · rw [if_neg hk] at h
      rw [mapSet, if_neg hk, keysOf, List.map_cons, keysOf] at *
      rw [List.map_cons]
      rw [ih h]
      rfl

theorem keysOf_mapDelete (m : List (String × Nat)) (k : String) :
    keysOf (mapDelete m k) = (keysOf m).filter (fun x => x ≠ k) := by
  induction m with
  | nil => rfl
  | cons kv tl ih =>
    by_cases hk : kv.1 = k
    · rw [mapDelete, if_pos hk, ih]
      simp [keysOf, List.filter_cons, hk]
    · rw [mapDelete, if_neg hk]
      simp only [keysOf, List.map_cons] at *
      rw [ih]
      simp [List.filter_cons, hk]

theorem mapGet_none_iff_not_mem (m : List (String × Nat)) (k : String) :
    mapGet m k = none ↔ k ∉ keysOf m := by
  induction m with
  | nil => simp [mapGet, keysOf]
  | cons kv tl ih =>
    rw [mapGet, keysOf, List.map_cons]
    by_cases hk : kv.1 = k
    · rw [if_pos hk]
      simp [hk]
    · rw [if_neg hk]
      rw [List.mem_cons]
      constructor
      · intro h hmem
        rcases hmem with hmem | hmem
        · exact hk (hmem ▸ rfl)
        · exact (ih.mp h) hmem
      · intro h
        exact ih.mpr (fun hm => h (Or.inr hm))

theorem length_eq_keysOf_length (m : List (String × Nat)) :
    m.length = (keysOf m).length := by
  simp [keysOf]

theorem length_filter_ne_of_mem (ks : List String) (k : String)
    (hnd : ks.Nodup) (hmem : k ∈ ks) :
    (ks.filter (fun x => x ≠ k)).length + 1 = ks.length := by
  induction ks with
  | nil => cases hmem
  | cons x tl ih =>
    rw [List.nodup_cons] at hnd
    rw [List.filter_cons]
    by_cases hx : x = k
    · subst hx
      have hfilter : tl.filter (fun y => y ≠ x) = tl :=
        List.filter_eq_self.mpr (fun y hy => by
          simp only [ne_eq, decide_eq_true_eq]
          exact fun hyx => hnd.1 (hyx ▸ hy))
      rw [if_neg (by simp)]
      rw [hfilter]
      rfl
    · have hmem2 : k ∈ tl := by
        rcases List.mem_cons.mp hmem with h | h
        · exact absurd h.symm hx
        · exact h
      have hlen := ih hnd.2 hmem2
      rw [if_pos (by simp [hx])]
      simp only [List.length_cons]
      simp only [ne_eq] at hlen ⊢
      omega

theorem length_filter_ne_of_not_mem (ks : List String) (k : String)
    (hmem : k ∉ ks) : (ks.filter (fun x => x ≠ k)).length = ks.length := by
  rw [List.filter_eq_self.mpr]
  intro y hy
  simp only [ne_eq, decide_eq_true_eq]
  exact fun hyk => hmem (hyk ▸ hy)

/-- The JSON-RPC error body the routes write:
`{jsonrpc: "2.0", error: {code, message[, data]}, id: null}`. -/
structure RpcErrorEnvelope where
  jsonrpc : String
  code : Int
  message : String
  data : Option String
  id : Json
deriving Repr

/-- The observable response of one handled event. -/
inductive Output where
  | noResponse
  | rpcError (status : Nat) (body : RpcErrorEnvelope)
  | delegated
  | toolsList (tools : List Tool)
deriving Repr

/-- The registry variant's module-level state: the two session maps and the
enriched catalog `enhancedTools` (assigned once by `setupServer`). -/
structure ServerState where
  activeTransports : List (String × Nat)
  activeServers : List (String × Nat)
  enhancedTools : List Tool
deriving Repr

/-- Externally visible events of the registry variant. `establish` is a
GET /mcp (fresh transport/server tokens, whether `server.connect` resolves,
whether response headers were already sent when it rejects, and the
rejection's message); `closeConn` is the `res.on("close")` callback
firing for a session id; `post` is a POST /mcp carrying the
`mcp-session-id` header (`none` = header absent); `del` is a DELETE /mcp;
`listTools` is a ListTools request reaching a session's server. -/
inductive Event where
  | establish (sid : String) (tid srv : Nat) (connectOk : Bool)
      (headersSent : Bool) (errMsg : String)
  | closeConn (sid : String)
  | post (sidHeader : Option String)
  | del
  | listTools
deriving Repr

/-- One event of the registry variant's lifecycle, as the route handlers
process it: GET stores the transport and server under the fresh session id,
then connects (deleting both entries again and answering 500 if headers are
unsent on failure); the close callback deletes both entries; POST looks the
session up and answers a -32000 envelope with HTTP 400 when it is absent;
DELETE always answers a -32000 envelope with HTTP 405; ListTools returns
the shared `enhancedTools`. -/
def step (st : ServerState) (e : Event) : ServerState × Output :=
  match e with
  | .establish sid tid srv connectOk headersSent errMsg =>
    let st1 := { st with
      activeTransports := mapSet st.activeTransports sid tid,
      activeServers := mapSet st.activeServers sid srv }
    if connectOk then (st1, .noResponse)
    else
      let st2 := { st1 with
        activeTransports := mapDelete st1.activeTransports sid,
        activeServers := mapDelete st1.activeServers sid }
      if headersSent then (st2, .noResponse)
      else (st2, .rpcError 500
        ⟨"2.0", -32603, "Internal server error", some errMsg, .null⟩)
  | .closeConn sid =>
    ({ st with
      activeTransports := mapDelete st.activeTransports sid,
      activeServers := mapDelete st.activeServers sid }, .noResponse)
  | .post sidHeader =>
    match sidHeader.bind (fun s => mapGet st.activeTransports s) with
    | none => (st, .rpcError 400 ⟨"2.0", -32000,
        "Session not found. Please establish SSE connection first (GET /mcp)",
        none, .null⟩)
    | some _ => (st, .delegated)
  | .del => (st, .rpcError 405 ⟨"2.0", -32000, "Method not allowed.", none, .null⟩)
  | .listTools => (st, .toolsList st.enhancedTools)

/-- Run a sequence of events, keeping only the state. -/
def run (st : ServerState) (es : List Event) : ServerState :=
  es.foldl (fun s e => (step s e).1) st

/-- The state right after `setupServer`: empty session maps, the catalog
enriched once. -/
def initialState (baseTools : List Tool) (portal : PortalInfo) : ServerState :=
  { activeTransports := [], activeServers := [],
    enhancedTools := enhanceToolsWithPortalInfo baseTools portal }

/-- Every establishment in the trace uses a session id that is not currently
registered (what the timestamp-plus-random generator provides
best-effort). -/
def freshTrace (st : ServerState) : List Event → Bool
  | [] => true
  | e :: es =>
    (match e with
     | .establish sid _ _ _ _ _ =>
       (mapGet st.activeTransports sid).isNone &&
         (mapGet st.activeServers sid).isNone
     | _ => true) && freshTrace (step st e).1 es

/-- Number of successful establishments in a trace. -/
def estCount (st : ServerState) : List Event → Nat
  | [] => 0
  | e :: es =>
    (match e with
     | .establish _ _ _ connectOk _ _ => if connectOk then 1 else 0
     | _ => 0) + estCount (step st e).1 es

/-- Number of effective removals (close events that found their session
registered) in a trace. -/
def remCount (st : ServerState) : List Event → Nat
  | [] => 0
  | e :: es =>
    (match e with
     | .closeConn sid =>
       if (mapGet st.activeTransports sid).isSome then 1 else 0
     | _ => 0) + remCount (step st e).1 es

/-- Registry invariant: the two maps register the same session ids, without
duplicates. -/
def RegInv (st : ServerState) : Prop :=
  keysOf st.activeTransports = keysOf st.activeServers ∧
  (keysOf st.activeTransports).Nodup

theorem step_post_state (st : ServerState) (sidHeader : Option String) :
    (step st (.post sidHeader)).1 = st := by
  simp only [step]
  split <;> rfl

theorem mapGet_none_of_keys_eq (m m2 : List (String × Nat)) (k : String)
    (hkeys : keysOf m = keysOf m2) (h : mapGet m k = none) :
    mapGet m2 k = none := by
  rw [mapGet_none_iff_not_mem] at h ⊢
  rw [← hkeys]
  exact h

theorem mapGet_some_of_keys_eq (m m2 : List (String × Nat)) (k : String)
    (hkeys : keysOf m = keysOf m2) (h : (mapGet m k).isSome = true) :
    (mapGet m2 k).isSome = true := by
  rcases h2 : mapGet m2 k with _ | v
  · rw [mapGet_none_of_keys_eq m2 m k hkeys.symm h2] at h
    cases h
  · rfl

/-- Registry accounting along any trace of fresh establishments: the
invariant is preserved and each map's size plus the effective removals
equals the initial size plus the successful establishments. -/
theorem run_count (es : List Event) : ∀ st, RegInv st → freshTrace st es = true →
    RegInv (run st es) ∧
    (run st es).activeTransports.length + remCount st es =
      st.activeTransports.length + estCount st es ∧
    (run st es).activeServers.length + remCount st es =
      st.activeServers.length + estCount st es := by
  induction es with
  | nil =>
    intro st hinv _
    exact ⟨hinv, by simp [run, estCount, remCount], by simp [run, estCount, remCount]⟩
  | cons e es ih =>
    intro st hinv hfresh
    have hrun : run st (e :: es) = run (step st e).1 es := rfl
    cases e with
    | establish sid tid srv connectOk headersSent errMsg =>
      simp only [freshTrace, Bool.and_eq_true, Option.isNone_iff_eq_none] at hfresh
      obtain ⟨⟨hfrT, hfrS⟩, hrest⟩ := hfresh
      cases connectOk with
      | true =>
        have hstep : (step st (.establish sid tid srv true headersSent errMsg)).1 =
            { st with
              activeTransports := mapSet st.activeTransports sid tid,
              activeServers := mapSet st.activeServers sid srv } := rfl
        have hinv2 : RegInv (step st (.establish sid tid srv true headersSent
            errMsg)).1 := by
          rw [hstep]
          constructor
          · show keysOf (mapSet st.activeTransports sid tid) =
              keysOf (mapSet st.activeServers sid srv)
            rw [keysOf_mapSet_fresh _ _ _ hfrT, keysOf_mapSet_fresh _ _ _ hfrS,
              hinv.1]
          · show (keysOf (mapSet st.activeTransports sid tid)).Nodup
            rw [keysOf_mapSet_fresh _ _ _ hfrT]
            rw [List.nodup_append]
            refine ⟨hinv.2, List.nodup_singleton sid, ?_⟩
            intro x hx
            simp only [List.mem_singleton]
            intro hxs
            subst hxs
            exact (mapGet_none_iff_not_mem _ _).mp hfrT hx
        obtain ⟨hinv3, hT, hS⟩ := ih _ hinv2 hrest
        refine ⟨by rw [hrun]; exact hinv3, ?_, ?_⟩
        all_goals rw [hrun]
        all_goals rw [show remCount st
            (.establish sid tid srv true headersSent errMsg :: es)
          = remCount (step st (.establish sid tid srv true headersSent errMsg)).1 es
          from by simp [remCount]]
        all_goals rw [show estCount st
            (.establish sid tid srv true headersSent errMsg :: es)
          = 1 + estCount (step st (.establish sid tid srv true headersSent
            errMsg)).1 es from by simp [estCount]]
        · have hlen : (step st (.establish sid tid srv true headersSent
              errMsg)).1.activeTransports.length =
              st.activeTransports.length + 1 := by
            rw [hstep]
            exact length_mapSet_fresh _ _ _ hfrT
          omega
        · have hlen : (step st (.establish sid tid srv true headersSent
              errMsg)).1.activeServers.length =
              st.activeServers.length + 1 := by
            rw [hstep]
            exact length_mapSet_fresh _ _ _ hfrS
          omega
      | false =>
        have hmT := mapDelete_mapSet_fresh st.activeTransports sid tid hfrT
        have hmS := mapDelete_mapSet_fresh st.activeServers sid srv hfrS
        have hstep : (step st (.establish sid tid srv false headersSent
            errMsg)).1 = st := by
          cases headersSent
          · show ({ st with
              activeTransports :=
                mapDelete (mapSet st.activeTransports sid tid) sid,
              activeServers :=
                mapDelete (mapSet st.activeServers sid srv) sid }
                : ServerState) = st
            rw [hmT, hmS]
          · show ({ st with
              activeTransports :=
                mapDelete (mapSet st.activeTransports sid tid) sid,
              activeServers :=
                mapDelete (mapSet st.activeServers sid srv) sid }
                : ServerState) = st
            rw [hmT, hmS]
        obtain ⟨hinv3, hT, hS⟩ := ih _ (by rw [hstep]; exact hinv) hrest
        refine ⟨by rw [hrun]; exact hinv3, ?_, ?_⟩
        all_goals rw [hrun]
        all_goals rw [show remCount st
            (.establish sid tid srv false headersSent errMsg :: es)
          = remCount (step st (.establish sid tid srv false headersSent errMsg)).1
            es from by simp [remCount]]
        all_goals rw [show estCount st
            (.establish sid tid srv false headersSent errMsg :: es)
          = 0 + estCount (step st (.establish sid tid srv false headersSent
            errMsg)).1 es from by simp [estCount]]
        · rw [hstep] at hT ⊢
          omega
        · rw [hstep] at hS ⊢
          omega
    | closeConn sid =>
      simp only [freshTrace, Bool.and_eq_true, true_and] at hfresh
      have hrest := hfresh
      have hstep : (step st (.closeConn sid)).1 =
          { st with
            activeTransports := mapDelete st.activeTransports sid,
            activeServers := mapDelete st.activeServers sid } := rfl
      have hinv2 : RegInv (step st (.closeConn sid)).1 := by
        rw [hstep]
        constructor
        · show keysOf (mapDelete st.activeTransports sid) =
            keysOf (mapDelete st.activeServers sid)
          rw [keysOf_mapDelete, keysOf_mapDelete, hinv.1]
        · show (keysOf (mapDelete st.activeTransports sid)).Nodup
          rw [keysOf_mapDelete]
          exact hinv.2.filter _
      obtain ⟨hinv3, hT, hS⟩ := ih _ hinv2 hrest
      refine ⟨by rw [hrun]; exact hinv3, ?_, ?_⟩
      all_goals rw [hrun]
      all_goals rw [show estCount st (.closeConn sid :: es)
        = estCount (step st (.closeConn sid)).1 es from by simp [estCount]]
      all_goals rw [show remCount st (.closeConn sid :: es)
        = (if (mapGet st.activeTransports sid).isSome then 1 else 0) +
          remCount (step st (.closeConn sid)).1 es from by simp [remCount]]
      · rcases hsome : (mapGet st.activeTransports sid).isSome with _ | _
        · have hnone : mapGet st.activeTransports sid = none := by
            rcases h2 : mapGet st.activeTransports sid with _ | v
            · rfl
            · rw [h2] at hsome
              cases hsome
          have hdel : mapDelete st.activeTransports sid = st.activeTransports :=
            mapDelete_of_get_none _ _ hnone
          rw [show (if false = true then (1:Nat) else 0) = 0 from rfl]
          rw [show (step st (.closeConn sid)).1.activeTransports =
            mapDelete st.activeTransports sid from rfl] at hT
          rw [hdel] at hT
          omega
        · have hmem : sid ∈ keysOf st.activeTransports := by
            by_contra hmem
            rw [← mapGet_none_iff_not_mem] at hmem
            rw [hmem] at hsome
            cases hsome
          have hlen : (mapDelete st.activeTransports sid).length + 1 =
              st.activeTransports.length := by
            rw [length_eq_keysOf_length, length_eq_keysOf_length, keysOf_mapDelete]
            exact length_filter_ne_of_mem _ _ hinv.2 hmem
          rw [show (if true = true then (1:Nat) else 0) = 1 from rfl]
          rw [show (step st (.closeConn sid)).1.activeTransports =
            mapDelete st.activeTransports sid from rfl] at hT
          omega
      · rcases hsome : (mapGet st.activeTransports sid).isSome with _ | _
        · have hnone : mapGet st.activeTransports sid = none := by
            rcases h2 : mapGet st.activeTransports sid with _ | v
            · rfl
            · rw [h2] at hsome
              cases hsome
          have hnoneS : mapGet st.activeServers sid = none :=
            mapGet_none_of_keys_eq _ _ _ hinv.1 hnone
          have hdel : mapDelete st.activeServers sid = st.activeServers :=
            mapDelete_of_get_none _ _ hnoneS
          rw [show (if false = true then (1:Nat) else 0) = 0 from rfl]
          rw [show (step st (.closeConn sid)).1.activeServers =
            mapDelete st.activeServers sid from rfl] at hS
          rw [hdel] at hS
          omega
        · have hmemT : sid ∈ keysOf st.activeTransports := by
            by_contra hmem
            rw [← mapGet_none_iff_not_mem] at hmem
            rw [hmem] at hsome
            cases hsome
          have hmem : sid ∈ keysOf st.activeServers := hinv.1 ▸ hmemT
          have hndS : (keysOf st.activeServers).Nodup := hinv.1 ▸ hinv.2
          have hlen : (mapDelete st.activeServers sid).length + 1 =
              st.activeServers.length := by
            rw [length_eq_keysOf_length, length_eq_keysOf_length, keysOf_mapDelete]
            exact length_filter_ne_of_mem _ _ hndS hmem
          rw [show (if true = true then (1:Nat) else 0) = 1 from rfl]
          rw [show (step st (.closeConn sid)).1.activeServers =
            mapDelete st.activeServers sid from rfl] at hS
          omega
    | post sidHeader =>
      simp only [freshTrace, Bool.and_eq_true, true_and] at hfresh
      have hstep := step_post_state st sidHeader
      obtain ⟨hinv3, hT, hS⟩ := ih _ (by rw [hstep]; exact hinv) hfresh
      refine ⟨by rw [hrun]; exact hinv3, ?_, ?_⟩
      all_goals rw [hrun]
      all_goals rw [show estCount st (.post sidHeader :: es)
        = estCount (step st (.post sidHeader)).1 es from by simp [estCount]]
      all_goals rw [show remCount st (.post sidHeader :: es)
        = remCount (step st (.post sidHeader)).1 es from by simp [remCount]]
      · rw [hstep] at hT ⊢
        omega
      · rw [hstep] at hS ⊢
        omega
    | del =>
      simp only [freshTrace, Bool.and_eq_true, true_and] at hfresh
      have hstep : (step st .del).1 = st := rfl
      obtain ⟨hinv3, hT, hS⟩ := ih _ (by rw [hstep]; exact hinv) hfresh
      refine ⟨by rw [hrun]; exact hinv3, ?_, ?_⟩
      all_goals rw [hrun]
      all_goals rw [show estCount st (.del :: es)
        = estCount (step st .del).1 es from by simp [estCount]]
      all_goals rw [show remCount st (.del :: es)
        = remCount (step st .del).1 es from by simp [remCount]]
      · rw [hstep] at hT ⊢
        omega
      · rw [hstep] at hS ⊢
        omega
    | listTools =>
      simp only [freshTrace, Bool.and_eq_true, true_and] at hfresh
      have hstep : (step st .listTools).1 = st := rfl
      obtain ⟨hinv3, hT, hS⟩ := ih _ (by rw [hstep]; exact hinv) hfresh
      refine ⟨by rw [hrun]; exact hinv3, ?_, ?_⟩
      all_goals rw [hrun]
      all_goals rw [show estCount st (.listTools :: es)
        = estCount (step st .listTools).1 es from by simp [estCount]]
      all_goals rw [show remCount st (.listTools :: es)
        = remCount (step st .listTools).1 es from by simp [remCount]]
      · rw [hstep] at hT ⊢
        omega
      · rw [hstep] at hS ⊢
        omega

/-- C4: a POST whose `mcp-session-id` is not a key of the session registry
is answered with a `-32000` envelope telling the client to establish the
SSE session first, with HTTP client-error status 400, and the server state
(registry entries, transports, servers, catalog) is returned unchanged. -/
theorem c4_post_unknown_session (st : ServerState) (sidHeader : Option String)
    (h : sidHeader.bind (fun s => mapGet st.activeTransports s) = none) :
    step st (.post sidHeader) = (st, .rpcError 400 ⟨"2.0", -32000,
      "Session not found. Please establish SSE connection first (GET /mcp)",
      none, .null⟩) := by
  simp only [step, h]

theorem c4_post_unknown_session_witness :
    step (initialState [] ⟨"Portal"⟩) (.post (some "missing")) =
      (initialState [] ⟨"Portal"⟩, .rpcError 400 ⟨"2.0", -32000,
        "Session not found. Please establish SSE connection first (GET /mcp)",
        none, .null⟩) :=
  c4_post_unknown_session (initialState [] ⟨"Portal"⟩) (some "missing") rfl

/-- C5: starting from the post-setup state, along any trace whose
establishments use fresh session ids, each registry map's size equals the
number of successful establishments minus the effective removals; closing a
session removes it exactly once (removal is idempotent and leaves no entry),
and removal of an absent identifier is a no-op. -/
theorem c5_registry_accounting (baseTools : List Tool) (portal : PortalInfo)
    (es : List Event)
    (hfresh : freshTrace (initialState baseTools portal) es = true) :
    ((run (initialState baseTools portal) es).activeTransports.length +
        remCount (initialState baseTools portal) es =
      estCount (initialState baseTools portal) es) ∧
    ((run (initialState baseTools portal) es).activeServers.length +
        remCount (initialState baseTools portal) es =
      estCount (initialState baseTools portal) es) ∧
    (∀ st : ServerState, ∀ sid : String,
      mapGet st.activeTransports sid = none →
      mapGet st.activeServers sid = none →
      (step st (.closeConn sid)).1 = st) ∧
    (∀ st : ServerState, ∀ sid : String,
      (step (step st (.closeConn sid)).1 (.closeConn sid)).1 =
        (step st (.closeConn sid)).1) ∧
    (∀ st : ServerState, ∀ sid : String,
      mapGet ((step st (.closeConn sid)).1).activeTransports sid = none ∧
      mapGet ((step st (.closeConn sid)).1).activeServers sid = none) := by
  have hinv0 : RegInv (initialState baseTools portal) := ⟨rfl, List.nodup_nil⟩
  obtain ⟨_, hT, hS⟩ := run_count es (initialState baseTools portal) hinv0 hfresh
  refine ⟨?_, ?_, ?_, ?_, ?_⟩
  · simpa [initialState] using hT
  · simpa [initialState] using hS
  · intro st sid h1 h2
    show ({ st with
      activeTransports := mapDelete st.activeTransports sid,
      activeServers := mapDelete st.activeServers sid } : ServerState) = st
    rw [mapDelete_of_get_none _ _ h1, mapDelete_of_get_none _ _ h2]
  · intro st sid
    show ({ st with
      activeTransports :=
        mapDelete (mapDelete st.activeTransports sid) sid,
      activeServers :=
        mapDelete (mapDelete st.activeServers sid) sid } : ServerState) =
      { st with
        activeTransports := mapDelete st.activeTransports sid,
        activeServers := mapDelete st.activeServers sid }
    rw [mapDelete_mapDelete, mapDelete_mapDelete]
  · intro st sid
    exact ⟨mapGet_mapDelete_self _ _, mapGet_mapDelete_self _ _⟩

theorem c5_registry_accounting_witness :
    (run (initialState [] ⟨"P"⟩)
        [.establish "a" 0 0 true false "", .closeConn "a", .closeConn "a",
          .establish "b" 1 1 true false "", .post (some "zzz"),
          .del]).activeTransports.length +
      remCount (initialState [] ⟨"P"⟩)
        [.establish "a" 0 0 true false "", .closeConn "a", .closeConn "a",
          .establish "b" 1 1 true false "", .post (some "zzz"), .del] =
      estCount (initialState [] ⟨"P"⟩)
        [.establish "a" 0 0 true false "", .closeConn "a", .closeConn "a",
          .establish "b" 1 1 true false "", .post (some "zzz"), .del] :=
  (c5_registry_accounting [] ⟨"P"⟩ _ (by decide)).1

/-- C6: when the connect step of an establishment fails, the registry entry
just created is removed again (no orphaned session under that id in either
map), and if response headers are not yet sent the route answers a JSON-RPC
error envelope with `id: null` and HTTP server-error status 500. -/
theorem c6_establish_failure_cleanup (st : ServerState) (sid : String)
    (tid srv : Nat) (headersSent : Bool) (errMsg : String) :
    mapGet ((step st (.establish sid tid srv false headersSent
        errMsg)).1).activeTransports sid = none ∧
    mapGet ((step st (.establish sid tid srv false headersSent
        errMsg)).1).activeServers sid = none ∧
    (headersSent = false →
      (step st (.establish sid tid srv false headersSent errMsg)).2 =
        .rpcError 500 ⟨"2.0", -32603, "Internal server error", some errMsg,
          .null⟩) := by
  cases headersSent with
  | false =>
    refine ⟨?_, ?_, fun _ => rfl⟩
    · show mapGet (mapDelete (mapSet st.activeTransports sid tid) sid) sid = none
      exact mapGet_mapDelete_self _ _
    · show mapGet (mapDelete (mapSet st.activeServers sid srv) sid) sid = none
      exact mapGet_mapDelete_self _ _
  | true =>
    refine ⟨?_, ?_, fun h => by cases h⟩
    · show mapGet (mapDelete (mapSet st.activeTransports sid tid) sid) sid = none
      exact mapGet_mapDelete_self _ _
    · show mapGet (mapDelete (mapSet st.activeServers sid srv) sid) sid = none
      exact mapGet_mapDelete_self _ _

theorem c6_establish_failure_cleanup_witness :
    (step (initialState [] ⟨"P"⟩) (.establish "s" 0 0 false false "boom")).2 =
      .rpcError 500 ⟨"2.0", -32603, "Internal server error", some "boom",
        .null⟩ ∧
    mapGet ((step (initialState [] ⟨"P"⟩)
        (.establish "s" 0 0 false false "boom")).1).activeTransports "s" =
      none :=
  ⟨(c6_establish_failure_cleanup (initialState [] ⟨"P"⟩) "s" 0 0 false
      "boom").2.2 rfl,
   (c6_establish_failure_cleanup (initialState [] ⟨"P"⟩) "s" 0 0 false
      "boom").1⟩

theorem step_tools (st : ServerState) (e : Event) :
    (step st e).1.enhancedTools = st.enhancedTools := by
  cases e with
  | establish sid tid srv connectOk headersSent errMsg =>
    cases connectOk <;> cases headersSent <;> rfl
  | closeConn sid => rfl
  | post sidHeader => rw [step_post_state]
  | del => rfl
  | listTools => rfl

theorem run_tools (es : List Event) : ∀ st : ServerState,
    (run st es).enhancedTools = st.enhancedTools := by
  induction es with
  | nil => intro st; rfl
  | cons e es ih =>
    intro st
    rw [show run st (e :: es) = run (step st e).1 es from rfl, ih, step_tools]

/-- C7: no matter which and how many events have been processed since
startup, the catalog is still the one enriched once at setup, a ListTools
request returns it in full, and every returned descriptor's description is
the original description prefixed with the portal's title. -/
theorem c7_catalog_stable (baseTools : List Tool) (portal : PortalInfo)
    (es : List Event) :
    (run (initialState baseTools portal) es).enhancedTools =
      enhanceToolsWithPortalInfo baseTools portal ∧
    (step (run (initialState baseTools portal) es) .listTools).2 =
      .toolsList (enhanceToolsWithPortalInfo baseTools portal) ∧
    ∀ t ∈ enhanceToolsWithPortalInfo baseTools portal,
      ∃ orig ∈ baseTools,
        t.description = "[" ++ portal.title ++ "] " ++ orig.description := by
  have h1 : (run (initialState baseTools portal) es).enhancedTools =
      enhanceToolsWithPortalInfo baseTools portal := run_tools es _
  refine ⟨h1, ?_, ?_⟩
  · show Output.toolsList (run (initialState baseTools portal) es).enhancedTools =
      Output.toolsList (enhanceToolsWithPortalInfo baseTools portal)
    rw [h1]
  · intro t ht
    rw [enhanceToolsWithPortalInfo, List.mem_map] at ht
    obtain ⟨orig, hmem, heq⟩ := ht
    exact ⟨orig, hmem, by rw [← heq]⟩

theorem c7_catalog_stable_witness :
    ∃ orig ∈ [(⟨"get_data", "d", Json.null⟩ : Tool)],
      (⟨"get_data", "[" ++ "P" ++ "] " ++ "d", Json.null⟩ : Tool).description =
        "[" ++ "P" ++ "] " ++ orig.description :=
  (c7_catalog_stable [⟨"get_data", "d", Json.null⟩] ⟨"P"⟩ []).2.2
    ⟨"get_data", "[" ++ "P" ++ "] " ++ "d", Json.null⟩
    (List.mem_singleton.mpr rfl)

/-- C8 (amended): every DELETE /mcp is rejected with HTTP 405 and a JSON
envelope with code `-32000` and message `Method not allowed.` (with a
trailing period), and the server state is untouched; no teardown happens on
this route. -/
theorem c8_delete_method_not_allowed (st : ServerState) :
    step st .del =
      (st, .rpcError 405 ⟨"2.0", -32000, "Method not allowed.", none, .null⟩) :=
  rfl

/-- C8 counterexample: the DELETE route's message is `Method not allowed.`,
which is not the claimed exact message `Method not allowed`. -/
theorem c8_message_counterexample :
    (step (initialState [] ⟨"P"⟩) .del).2 =
      .rpcError 405 ⟨"2.0", -32000, "Method not allowed.", none, .null⟩ ∧
    "Method not allowed." ≠ "Method not allowed" :=
  ⟨rfl, by decide⟩

/-- C10: catalog enrichment is a per-element map that preserves length and
order, keeps each descriptor's name and input schema, and changes only the
description (to the title-prefixed original); as a pure function it leaves
the input descriptors unmodified. -/
theorem c10_enhance_frame (tools : List Tool) (portal : PortalInfo) :
    (enhanceToolsWithPortalInfo tools portal).length = tools.length ∧
    (∀ i : Nat, (enhanceToolsWithPortalInfo tools portal)[i]? =
      (tools[i]?).map (fun t =>
        { t with description := "[" ++ portal.title ++ "] " ++ t.description })) ∧
    (∀ i : Nat, ∀ t t2 : Tool, tools[i]? = some t →
      (enhanceToolsWithPortalInfo tools portal)[i]? = some t2 →
      t2.name = t.name ∧ t2.inputSchema = t.inputSchema ∧
      t2.description = "[" ++ portal.title ++ "] " ++ t.description) := by
  refine ⟨by simp [enhanceToolsWithPortalInfo], ?_, ?_⟩
  · intro i
    rw [enhanceToolsWithPortalInfo, List.getElem?_map]
  · intro i t t2 h1 h2
    rw [enhanceToolsWithPortalInfo, List.getElem?_map, h1] at h2
    injection h2 with h2
    subst h2
    exact ⟨rfl, rfl, rfl⟩

theorem c10_enhance_frame_witness :
    (⟨"n", "[" ++ "P" ++ "] " ++ "d", Json.null⟩ : Tool).name =
      (⟨"n", "d", Json.null⟩ : Tool).name ∧
    (⟨"n", "[" ++ "P" ++ "] " ++ "d", Json.null⟩ : Tool).inputSchema =
      (⟨"n", "d", Json.null⟩ : Tool).inputSchema ∧
    (⟨"n", "[" ++ "P" ++ "] " ++ "d", Json.null⟩ : Tool).description =
      "[" ++ (⟨"P"⟩ : PortalInfo).title ++ "] " ++
        (⟨"n", "d", Json.null⟩ : Tool).description :=
  (c10_enhance_frame [⟨"n", "d", Json.null⟩] ⟨"P"⟩).2.2 0
    ⟨"n", "d", Json.null⟩ ⟨"n", "[" ++ "P" ++ "] " ++ "d", Json.null⟩ rfl rfl
